import Mathlib

/-!
# ConfigService: the configuration store and the value resolver

A shallow embedding of `Service/models.go`, `Service/configdb.go`, the part of
`Service/main.go` that builds the store, and the handlers `Handlers.PostConfig`
and `Handlers.GetConfigValue` of `Service/handlers.go` on their decoded requests.

* A Go `map[string]V` is the list of its entries (`GoMap V`); the order of the
  list stands for the order in which a `range` over the map visits them.
* A Go method that mutates the store returns the store after the call together
  with its `error` result (`none` is Go's `nil`).
* A Go function returning `(T, error)` returns `Except Error T`.
* An `error` is its message; `errors.Wrap(err, msg)` is `msg ++ ": " ++ err`.
-/

namespace ConfigService

/-! ## Go maps -/

/-- A Go `map[string]V` as the list of its entries. -/
abbrev GoMap (V : Type) := List (String × V)

namespace GoMap

variable {V : Type}

/-- The comma-ok read `v, found := m[k]`: `none` when `found` is false. -/
def get : GoMap V → String → Option V
  | [], _ => none
  | (k', v) :: rest, k => if k' = k then some v else get rest k

/-- The builtin `delete(m, k)`. -/
def delete (m : GoMap V) (k : String) : GoMap V :=
  m.filter (fun e => decide (e.1 ≠ k))

/-- The assignment `m[k] = v`. -/
def set (m : GoMap V) (k : String) (v : V) : GoMap V :=
  (k, v) :: delete m k

/-- The values visited by `maps.Values(m)`, collected by `slices.Collect`. -/
def values (m : GoMap V) : List V :=
  m.map Prod.snd

end GoMap

/-! ## models.go -/

structure ConfigPath where
  Service : String
  Name : String
deriving DecidableEq, Repr

/-- The Go struct `Config`; the embedded `ConfigPath` is the parent structure
and the field `Type` is spelled `Type_`. -/
structure Config extends ConfigPath where
  Type_ : String
  DefaultValue : String
deriving DecidableEq, Repr

structure OverrideKey where
  EntityType : String
  EntityId : String
deriving DecidableEq, Repr

structure Override extends OverrideKey where
  Value : String
deriving DecidableEq, Repr

structure GetConfigValueResponse where
  Type_ : String
  Value : String
deriving DecidableEq, Repr

/-- The zero value `Config{}`. -/
def Config.zero : Config := { Service := "", Name := "", Type_ := "", DefaultValue := "" }

/-- The zero value `Override{}`. -/
def Override.zero : Override := { EntityType := "", EntityId := "", Value := "" }

/-! ## Errors (github.com/pkg/errors) -/

abbrev Error := String

deriving instance DecidableEq for Except

/-- The call `errors.New(message)`. -/
def errors.New (message : String) : Error := message

/-- The call `errors.Wrap(err, message)` for a non-nil `err`. -/
def errors.Wrap (err : Error) (message : String) : Error := message ++ ": " ++ err

/-! ## configdb.go -/

abbrev ConfigOverrides := GoMap Override

/-- The Go struct `ConfigDb`. Its field `Config ConfigDbConfig` (the connection
settings) is read and written by no operation and is left out. -/
structure ConfigDb where
  Configs : GoMap Config
  Overrides : GoMap ConfigOverrides
deriving DecidableEq, Repr

def GetConfigPathStr (config : ConfigPath) : String :=
  config.Service ++ "/" ++ config.Name

def GetOverridePathStr (override : OverrideKey) : String :=
  override.EntityType ++ "/" ++ override.EntityId

def ConfigDb.GetConfigs (db : ConfigDb) : Except Error (List Config) :=
  .ok (GoMap.values db.Configs)

def ConfigDb.AddConfig (db : ConfigDb) (config : Config) : ConfigDb × Option Error :=
  let strPath := GetConfigPathStr config.toConfigPath
  ({ Configs := GoMap.set db.Configs strPath config,
     Overrides := GoMap.set db.Overrides strPath [] }, none)

def ConfigDb.GetConfig (db : ConfigDb) (path : ConfigPath) : Except Error Config :=
  let strPath := GetConfigPathStr path
  match GoMap.get db.Configs strPath with
  | some value => .ok value
  | none => .error (errors.New "Config not found")

def ConfigDb.DeleteConfig (db : ConfigDb) (path : ConfigPath) : ConfigDb × Option Error :=
  let strPath := GetConfigPathStr path
  ({ db with Configs := GoMap.delete db.Configs strPath }, none)

def ConfigDb.GetOverrides (db : ConfigDb) (config : ConfigPath) : Except Error (List Override) :=
  let configStr := GetConfigPathStr config
  match GoMap.get db.Overrides configStr with
  | none => .error (errors.New "Config not found")
  | some configOverrides => .ok (GoMap.values configOverrides)

/-- The inner map is a reference in Go, so writing into it is visible through
`db.Overrides[configStr]`: the entry of the outer map is rewritten. -/
def ConfigDb.AddOverride (db : ConfigDb) (config : ConfigPath) (override : Override) :
    ConfigDb × Option Error :=
  let configStr := GetConfigPathStr config
  match GoMap.get db.Overrides configStr with
  | none => (db, some (errors.New "Config not found"))
  | some configOverrides =>
    let overrideStr := GetOverridePathStr override.toOverrideKey
    ({ db with Overrides :=
        GoMap.set db.Overrides configStr (GoMap.set configOverrides overrideStr override) }, none)

/-- Returns the Go triple `(override, found, err)` as `ok (override, found)` or `error err`. -/
def ConfigDb.GetOverride (db : ConfigDb) (config : ConfigPath) (overrideKey : OverrideKey) :
    Except Error (Override × Bool) :=
  let configStr := GetConfigPathStr config
  match GoMap.get db.Overrides configStr with
  | none => .error (errors.New "Config not found")
  | some configOverrides =>
    let overrideStr := GetOverridePathStr overrideKey
    match GoMap.get configOverrides overrideStr with
    | none => .ok (Override.zero, false)
    | some override => .ok (override, true)

def ConfigDb.DeleteOverride (db : ConfigDb) (config : ConfigPath) (overrideKey : OverrideKey) :
    ConfigDb × Option Error :=
  let configStr := GetConfigPathStr config
  match GoMap.get db.Overrides configStr with
  | none => (db, none)
  | some configOverrides =>
    let overrideStr := GetOverridePathStr overrideKey
    ({ db with Overrides :=
        GoMap.set db.Overrides configStr (GoMap.delete configOverrides overrideStr) }, none)

/-! ## main.go -/

/-- The store built by `BuildApplication`: both maps are made empty. -/
def BuildApplication : ConfigDb := { Configs := [], Overrides := [] }

/-! ## handlers.go -/

/-- The loop `for key, value := range entityAttributes` of `Handlers.GetConfigValue`;
the list is the sequence of pairs in the order the range visits them, and
`configValue` is the value held when the loop is entered. -/
def resolveLoop (db : ConfigDb) (configPath : ConfigPath) (configValue : String) :
    List (String × String) → Except Error String
  | [] => .ok configValue
  | (key, value) :: rest =>
    let overrideKey : OverrideKey := { EntityType := key, EntityId := value }
    match db.GetOverride configPath overrideKey with
    | .error err => .error (errors.Wrap err "failed to get override from db")
    | .ok (override, found) =>
      if found then .ok override.Value
      else resolveLoop db configPath configValue rest

/-- The handler `Handlers.GetConfigValue` (the spec's `resolveValue`) on the store
`h.ConfigDb`, the path decoded from the URL and the attributes decoded from the
request body, given in the order in which the map is ranged over. -/
def GetConfigValue (db : ConfigDb) (configPath : ConfigPath)
    (attributes : List (String × String)) : Except Error GetConfigValueResponse :=
  match db.GetConfig configPath with
  | .error err => .error (errors.Wrap err "failed to get config from db")
  | .ok config =>
    match resolveLoop db configPath config.DefaultValue attributes with
    | .error err => .error err
    | .ok configValue => .ok { Type_ := config.Type_, Value := configValue }

/-- The Go struct `SimpleResponse`. -/
structure SimpleResponse where
  Message : String
deriving DecidableEq, Repr

/-- The Go struct `PostConfigRequest`, the decoded body of `POST /configs`. -/
structure PostConfigRequest where
  Config : Config
deriving DecidableEq, Repr

abbrev PostConfigResponse := SimpleResponse

/-- The handler `Handlers.PostConfig` on the store `h.ConfigDb` and the decoded
request body; it returns the store after the call and either the error or the
response that is marshalled into a reply of status 200. -/
def PostConfig (db : ConfigDb) (requestBody : PostConfigRequest) :
    ConfigDb × Except Error PostConfigResponse :=
  if requestBody.Config.Name = "" ∨ requestBody.Config.Service = "" then
    (db, .error (errors.New "config name and service are required"))
  else
    match db.AddConfig requestBody.Config with
    | (db', some err) => (db', .error (errors.Wrap err "failed to add config to db"))
    | (db', none) => (db', .ok { Message := "Success" })

/-! ## Sequences of store operations -/

/-- A mutating call on the store. -/
inductive Op where
  | addConfig (config : Config)
  | deleteConfig (path : ConfigPath)
  | addOverride (config : ConfigPath) (override : Override)
  | deleteOverride (config : ConfigPath) (overrideKey : OverrideKey)
deriving DecidableEq, Repr

/-- The store after one call (the returned error is dropped). -/
def ConfigDb.step (db : ConfigDb) : Op → ConfigDb
  | .addConfig config => (db.AddConfig config).1
  | .deleteConfig path => (db.DeleteConfig path).1
  | .addOverride config override => (db.AddOverride config override).1
  | .deleteOverride config overrideKey => (db.DeleteOverride config overrideKey).1

/-- The store after a sequence of calls. -/
def ConfigDb.run (db : ConfigDb) (ops : List Op) : ConfigDb :=
  ops.foldl ConfigDb.step db

/-- The stores reachable from the empty store of `BuildApplication`. -/
def Reachable (db : ConfigDb) : Prop :=
  ∃ ops : List Op, BuildApplication.run ops = db

/-- Every key of the definitions map is a key of the override-set map. -/
def KeysCovered (db : ConfigDb) : Prop :=
  ∀ k c, GoMap.get db.Configs k = some c → ∃ s, GoMap.get db.Overrides k = some s

/-- Every definition is stored under the key string of its own path. -/
def WellKeyed (db : ConfigDb) : Prop :=
  ∀ e ∈ db.Configs, e.1 = GetConfigPathStr e.2.toConfigPath

/-- Every override is stored under the key string of its own key, and no
override set has two entries under one key string. -/
def OverridesKeyed (db : ConfigDb) : Prop :=
  ∀ e ∈ db.Overrides,
    (∀ f ∈ e.2, f.1 = GetOverridePathStr f.2.toOverrideKey) ∧ (e.2.map Prod.fst).Nodup

/-! ## Sample data of the integration tests -/

def path1 : ConfigPath := { Service := "service1", Name := "config1" }

def config1 : Config :=
  { Service := "service1", Name := "config1", Type_ := "string", DefaultValue := "value1" }

def override1 : Override := { EntityType := "user", EntityId := "123", Value := "override1" }

def override2 : Override := { EntityType := "group", EntityId := "456", Value := "override2" }

/-- The store of `TestGetConfigValueOverrideByMultipleEntity`. -/
def testDb : ConfigDb :=
  BuildApplication.run
    [.addConfig config1, .addOverride path1 override1, .addOverride path1 override2]

/-- The store of `TestGetOverride`: one config with one override. -/
def overrideDb : ConfigDb :=
  BuildApplication.run [.addConfig config1, .addOverride path1 override1]

/-- A second definition of the identity of `config1`. -/
def config1b : Config :=
  { Service := "service1", Name := "config1", Type_ := "string", DefaultValue := "value2" }

/-- The store of `TestDeleteConfig` after the delete. -/
def deletedDb : ConfigDb :=
  BuildApplication.run [.addConfig config1, .deleteConfig path1]

/-- A definition whose service holds the delimiter. -/
def slashConfig : Config :=
  { Service := "a/b", Name := "c", Type_ := "string", DefaultValue := "v" }

/-- The store holding `slashConfig` alone. -/
def slashDb : ConfigDb := BuildApplication.run [.addConfig slashConfig]

/-- An override whose entity id holds the delimiter. -/
def slashOverride : Override := { EntityType := "a", EntityId := "b/c", Value := "v" }

/-- The store holding `config1` with `slashOverride` alone. -/
def slashOverrideDb : ConfigDb :=
  BuildApplication.run [.addConfig config1, .addOverride path1 slashOverride]

/-- The store in which `config1` was deleted after an override was added to it. -/
def orphanDb : ConfigDb :=
  BuildApplication.run
    [.addConfig config1, .addOverride path1 override1, .deleteConfig path1]

/-- The definition posted by `TestAddConfig`. -/
def config2 : Config :=
  { Service := "service1", Name := "config2", Type_ := "string", DefaultValue := "value2" }

/-- The store holding `config1` with `override1` and `slashOverride`. -/
def collisionDb : ConfigDb :=
  BuildApplication.run
    [.addConfig config1, .addOverride path1 override1, .addOverride path1 slashOverride]

/-! ## Lemmas on Go maps -/

namespace GoMap

variable {V : Type}

theorem delete_cons_self (rest : GoMap V) (k : String) (v : V) :
    delete ((k, v) :: rest) k = delete rest k := by
  simp [delete]

theorem delete_cons_ne (rest : GoMap V) {k k' : String} (v : V) (h : k' ≠ k) :
    delete ((k', v) :: rest) k = (k', v) :: delete rest k := by
  simp [delete, h]

theorem get_delete_self (m : GoMap V) (k : String) : get (delete m k) k = none := by
  induction m with
  | nil => rfl
  | cons e rest ih =>
    obtain ⟨k', v⟩ := e
    by_cases h : k' = k
    · rw [h, delete_cons_self]; exact ih
    · rw [delete_cons_ne rest v h, get, if_neg h]; exact ih

theorem get_delete_ne (m : GoMap V) {k k' : String} (h : k' ≠ k) :
    get (delete m k) k' = get m k' := by
  induction m with
  | nil => rfl
  | cons e rest ih =>
    obtain ⟨k0, v⟩ := e
    by_cases h0 : k0 = k
    · have h1 : k0 ≠ k' := fun h2 => h (h2.symm.trans h0)
      rw [h0, delete_cons_self, get, if_neg (h0 ▸ h1)]; exact ih
    · rw [delete_cons_ne rest v h0]
      by_cases h1 : k0 = k'
      · rw [get, get, if_pos h1, if_pos h1]
      · rw [get, get, if_neg h1, if_neg h1]; exact ih

theorem get_set_self (m : GoMap V) (k : String) (v : V) : get (set m k v) k = some v := by
  simp [set, get]

theorem get_set_ne (m : GoMap V) {k k' : String} (v : V) (h : k' ≠ k) :
    get (set m k v) k' = get m k' := by
  have h1 : k ≠ k' := fun h2 => h h2.symm
  rw [set, get, if_neg h1]
  exact get_delete_ne m h

theorem delete_set_self (m : GoMap V) (k : String) (v : V) :
    delete (set m k v) k = delete m k := by
  simp [set, delete, List.filter_filter]

theorem length_set_set (m : GoMap V) (k : String) (v v' : V) :
    (set (set m k v) k v').length = (set m k v).length := by
  rw [set, delete_set_self]
  rfl

theorem mem_of_get_eq_some (m : GoMap V) (k : String) (v : V) (h : get m k = some v) :
    (k, v) ∈ m := by
  induction m with
  | nil => simp [get] at h
  | cons e rest ih =>
    obtain ⟨k', v'⟩ := e
    by_cases h0 : k' = k
    · simp only [get, h0, if_true, Option.some.injEq] at h
      simp [h0, h]
    · simp only [get, h0, if_false] at h
      exact List.mem_cons_of_mem _ (ih h)

theorem mem_delete (m : GoMap V) (k : String) (e : String × V) :
    e ∈ delete m k ↔ e ∈ m ∧ e.1 ≠ k := by
  simp [delete]

theorem mem_set (m : GoMap V) (k : String) (v : V) (e : String × V) :
    e ∈ set m k v ↔ e = (k, v) ∨ (e ∈ m ∧ e.1 ≠ k) := by
  simp [set, mem_delete]

theorem get_of_mem_nodup (m : GoMap V) (k : String) (v : V)
    (hm : (k, v) ∈ m) (hn : (m.map Prod.fst).Nodup) : get m k = some v := by
  induction m with
  | nil => exact absurd hm (List.not_mem_nil _)
  | cons e rest ih =>
    obtain ⟨k', v'⟩ := e
    rw [List.map_cons, List.nodup_cons] at hn
    rcases List.mem_cons.1 hm with h | h
    · obtain ⟨rfl, rfl⟩ := Prod.mk.inj h
      rw [get, if_pos rfl]
    · have hk : k' ≠ k := by
        intro e
        exact hn.1 (List.mem_map.2 ⟨(k, v), h, e.symm⟩)
      rw [get, if_neg hk]
      exact ih h hn.2

theorem nodup_delete (m : GoMap V) (k : String) (hn : (m.map Prod.fst).Nodup) :
    ((delete m k).map Prod.fst).Nodup :=
  hn.sublist ((List.filter_sublist m).map Prod.fst)

theorem nodup_set (m : GoMap V) (k : String) (v : V) (hn : (m.map Prod.fst).Nodup) :
    ((set m k v).map Prod.fst).Nodup := by
  rw [set, List.map_cons, List.nodup_cons]
  refine ⟨?_, nodup_delete m k hn⟩
  intro hk
  obtain ⟨e, he, hek⟩ := List.mem_map.1 hk
  exact ((mem_delete m k e).1 he).2 hek

theorem mem_values (m : GoMap V) (v : V) : v ∈ values m ↔ ∃ k, (k, v) ∈ m := by
  simp [values]

end GoMap

/-! ## Lemmas on the key strings -/

theorem list_append_sep_inj {α : Type} {a : α} :
    ∀ {l1 l2 r1 r2 : List α}, a ∉ l1 → a ∉ l2 →
      l1 ++ a :: r1 = l2 ++ a :: r2 → l1 = l2 ∧ r1 = r2
  | [], [], _, _, _, _, h => by simpa using h
  | [], b :: l2, _, _, _, h2, h => by
    simp only [List.nil_append, List.cons_append, List.cons.injEq] at h
    exact absurd (by simp [h.1]) h2
  | b :: l1, [], _, _, h1, _, h => by
    simp only [List.nil_append, List.cons_append, List.cons.injEq] at h
    exact absurd (by simp [h.1]) h1
  | b :: l1, c :: l2, r1, r2, h1, h2, h => by
    simp only [List.cons_append, List.cons.injEq] at h
    have h1' : a ∉ l1 := fun hm => h1 (List.mem_cons_of_mem _ hm)
    have h2' : a ∉ l2 := fun hm => h2 (List.mem_cons_of_mem _ hm)
    obtain ⟨e1, e2⟩ := list_append_sep_inj h1' h2' h.2
    exact ⟨by rw [h.1, e1], e2⟩

theorem sep_append_inj (s1 n1 s2 n2 : String)
    (h1 : '/' ∉ s1.data) (h2 : '/' ∉ s2.data)
    (h : s1 ++ "/" ++ n1 = s2 ++ "/" ++ n2) : s1 = s2 ∧ n1 = n2 := by
  have hd := congrArg String.data h
  simp only [String.data_append, List.append_assoc] at hd
  simp only [List.singleton_append] at hd
  obtain ⟨e1, e2⟩ := list_append_sep_inj h1 h2 hd
  exact ⟨String.ext e1, String.ext e2⟩

theorem sep_append_left_cancel (s n1 n2 : String)
    (h : s ++ "/" ++ n1 = s ++ "/" ++ n2) : n1 = n2 := by
  have hd := congrArg String.data h
  simp only [String.data_append, List.append_assoc, List.append_cancel_left_eq] at hd
  exact String.ext hd

theorem sep_append_right_cancel (s1 s2 n : String)
    (h : s1 ++ "/" ++ n = s2 ++ "/" ++ n) : s1 = s2 := by
  have hd := congrArg String.data h
  simp only [String.data_append, List.append_cancel_right_eq] at hd
  exact String.ext hd

theorem GetConfigPathStr_inj (p q : ConfigPath)
    (hp : '/' ∉ p.Service.data) (hq : '/' ∉ q.Service.data)
    (h : GetConfigPathStr p = GetConfigPathStr q) : p = q := by
  obtain ⟨ps, pn⟩ := p
  obtain ⟨qs, qn⟩ := q
  obtain ⟨e1, e2⟩ := sep_append_inj ps pn qs qn hp hq h
  simp [e1, e2]

theorem GetOverridePathStr_inj (p q : OverrideKey)
    (hp : '/' ∉ p.EntityType.data) (hq : '/' ∉ q.EntityType.data)
    (h : GetOverridePathStr p = GetOverridePathStr q) : p = q := by
  obtain ⟨ps, pn⟩ := p
  obtain ⟨qs, qn⟩ := q
  obtain ⟨e1, e2⟩ := sep_append_inj ps pn qs qn hp hq h
  simp [e1, e2]

theorem GetConfigPathStr_ne_of_name_ne (A X Y : String) (h : X ≠ Y) :
    GetConfigPathStr ⟨A, X⟩ ≠ GetConfigPathStr ⟨A, Y⟩ :=
  fun e => h (sep_append_left_cancel A X Y e)

theorem GetConfigPathStr_ne_of_service_ne (A B X : String) (h : A ≠ B) :
    GetConfigPathStr ⟨A, X⟩ ≠ GetConfigPathStr ⟨B, X⟩ :=
  fun e => h (sep_append_right_cancel A B X e)

/-! ## Invariants of the reachable stores -/

theorem AddOverride_Configs (db : ConfigDb) (p : ConfigPath) (o : Override) :
    (db.AddOverride p o).1.Configs = db.Configs := by
  simp only [ConfigDb.AddOverride]
  split <;> rfl

theorem DeleteOverride_Configs (db : ConfigDb) (p : ConfigPath) (k : OverrideKey) :
    (db.DeleteOverride p k).1.Configs = db.Configs := by
  simp only [ConfigDb.DeleteOverride]
  split <;> rfl

theorem step_Overrides_present (db : ConfigDb) (op : Op) (k : String)
    (h : ∃ s, GoMap.get db.Overrides k = some s) :
    ∃ s, GoMap.get (db.step op).Overrides k = some s := by
  cases op with
  | addConfig c =>
    by_cases hk : k = GetConfigPathStr c.toConfigPath
    · exact ⟨[], by rw [hk]; exact GoMap.get_set_self _ _ _⟩
    · obtain ⟨s, hs⟩ := h
      exact ⟨s, by rw [← hs]; exact GoMap.get_set_ne _ _ hk⟩
  | deleteConfig p => exact h
  | addOverride p o =>
    simp only [ConfigDb.step, ConfigDb.AddOverride]
    cases hp : GoMap.get db.Overrides (GetConfigPathStr p) with
    | none => exact h
    | some co =>
      by_cases hk : k = GetConfigPathStr p
      · exact ⟨_, by rw [hk]; exact GoMap.get_set_self _ _ _⟩
      · obtain ⟨s, hs⟩ := h
        exact ⟨s, by rw [← hs]; exact GoMap.get_set_ne _ _ hk⟩
  | deleteOverride p key =>
    simp only [ConfigDb.step, ConfigDb.DeleteOverride]
    cases hp : GoMap.get db.Overrides (GetConfigPathStr p) with
    | none => exact h
    | some co =>
      by_cases hk : k = GetConfigPathStr p
      · exact ⟨_, by rw [hk]; exact GoMap.get_set_self _ _ _⟩
      · obtain ⟨s, hs⟩ := h
        exact ⟨s, by rw [← hs]; exact GoMap.get_set_ne _ _ hk⟩

theorem run_Overrides_present (ops : List Op) :
    ∀ (db : ConfigDb) (k : String), (∃ s, GoMap.get db.Overrides k = some s) →
      ∃ s, GoMap.get (db.run ops).Overrides k = some s := by
  induction ops with
  | nil => intro db k h; exact h
  | cons op rest ih =>
    intro db k h
    exact ih (db.step op) k (step_Overrides_present db op k h)

theorem step_KeysCovered (db : ConfigDb) (op : Op) (h : KeysCovered db) :
    KeysCovered (db.step op) := by
  intro k c hc
  cases op with
  | addConfig cfg =>
    by_cases hk : k = GetConfigPathStr cfg.toConfigPath
    · exact ⟨[], by rw [hk]; exact GoMap.get_set_self _ _ _⟩
    · have hc' : GoMap.get db.Configs k = some c := by
        rw [← hc]; exact (GoMap.get_set_ne _ _ hk).symm
      obtain ⟨s, hs⟩ := h k c hc'
      exact ⟨s, by rw [← hs]; exact GoMap.get_set_ne _ _ hk⟩
  | deleteConfig p =>
    have hk : k ≠ GetConfigPathStr p := by
      intro e
      have hn : GoMap.get (GoMap.delete db.Configs (GetConfigPathStr p)) k = none := by
        rw [e]; exact GoMap.get_delete_self _ _
      have hc2 : GoMap.get (GoMap.delete db.Configs (GetConfigPathStr p)) k = some c := hc
      rw [hn] at hc2
      exact Option.noConfusion hc2
    have hc' : GoMap.get db.Configs k = some c := by
      rw [← hc]; exact (GoMap.get_delete_ne _ hk).symm
    exact h k c hc'
  | addOverride p o =>
    have hc' : GoMap.get db.Configs k = some c := by
      rw [← hc]; simp only [ConfigDb.step, AddOverride_Configs]
    exact step_Overrides_present db _ k (h k c hc')
  | deleteOverride p key =>
    have hc' : GoMap.get db.Configs k = some c := by
      rw [← hc]; simp only [ConfigDb.step, DeleteOverride_Configs]
    exact step_Overrides_present db _ k (h k c hc')

theorem step_WellKeyed (db : ConfigDb) (op : Op) (h : WellKeyed db) :
    WellKeyed (db.step op) := by
  intro e he
  cases op with
  | addConfig cfg =>
    have he' : e ∈ GoMap.set db.Configs (GetConfigPathStr cfg.toConfigPath) cfg := he
    rcases (GoMap.mem_set _ _ _ _).1 he' with rfl | ⟨hm, _⟩
    · rfl
    · exact h e hm
  | deleteConfig p =>
    have he' : e ∈ GoMap.delete db.Configs (GetConfigPathStr p) := he
    exact h e ((GoMap.mem_delete _ _ _).1 he').1
  | addOverride p o =>
    simp only [ConfigDb.step, AddOverride_Configs] at he
    exact h e he
  | deleteOverride p key =>
    simp only [ConfigDb.step, DeleteOverride_Configs] at he
    exact h e he

theorem run_invariants (ops : List Op) :
    ∀ db : ConfigDb, KeysCovered db → WellKeyed db →
      KeysCovered (db.run ops) ∧ WellKeyed (db.run ops) := by
  induction ops with
  | nil => intro db h1 h2; exact ⟨h1, h2⟩
  | cons op rest ih =>
    intro db h1 h2
    exact ih (db.step op) (step_KeysCovered db op h1) (step_WellKeyed db op h2)

theorem Reachable.keysCovered {db : ConfigDb} (h : Reachable db) : KeysCovered db := by
  obtain ⟨ops, rfl⟩ := h
  refine (run_invariants ops BuildApplication ?_ ?_).1
  · intro k c hc; simp [BuildApplication, GoMap.get] at hc
  · intro e he; simp [BuildApplication] at he

theorem Reachable.wellKeyed {db : ConfigDb} (h : Reachable db) : WellKeyed db := by
  obtain ⟨ops, rfl⟩ := h
  refine (run_invariants ops BuildApplication ?_ ?_).2
  · intro k c hc; simp [BuildApplication, GoMap.get] at hc
  · intro e he; simp [BuildApplication] at he

theorem reachable_after_step {db : ConfigDb} (h : Reachable db) (op : Op) : Reachable (db.step op) := by
  obtain ⟨ops, rfl⟩ := h
  exact ⟨ops ++ [op], by simp [ConfigDb.run, List.foldl_append]⟩

/-! ## Lemmas on the store operations -/

theorem GetConfig_eq_ok_iff (db : ConfigDb) (p : ConfigPath) (c : Config) :
    db.GetConfig p = .ok c ↔ GoMap.get db.Configs (GetConfigPathStr p) = some c := by
  simp only [ConfigDb.GetConfig]
  cases GoMap.get db.Configs (GetConfigPathStr p) <;> simp

theorem GetOverride_of_set (db : ConfigDb) (p : ConfigPath) (k : OverrideKey)
    (co : ConfigOverrides) (h : GoMap.get db.Overrides (GetConfigPathStr p) = some co) :
    db.GetOverride p k =
      match GoMap.get co (GetOverridePathStr k) with
      | none => .ok (Override.zero, false)
      | some override => .ok (override, true) := by
  simp only [ConfigDb.GetOverride, h]

theorem GetOverride_congr (db db' : ConfigDb) (p : ConfigPath) (k : OverrideKey)
    (h : GoMap.get db'.Overrides (GetConfigPathStr p) = GoMap.get db.Overrides (GetConfigPathStr p)) :
    db'.GetOverride p k = db.GetOverride p k := by
  simp only [ConfigDb.GetOverride, h]

theorem resolveLoop_congr (db db' : ConfigDb) (p : ConfigPath) (v : String)
    (h : ∀ k, db'.GetOverride p k = db.GetOverride p k) (attributes : List (String × String)) :
    resolveLoop db' p v attributes = resolveLoop db p v attributes := by
  induction attributes with
  | nil => rfl
  | cons a rest ih =>
    obtain ⟨key, value⟩ := a
    simp only [resolveLoop, h, ih]

theorem GetOverride_found_set (db : ConfigDb) (p : ConfigPath) (k : OverrideKey)
    (r : Override × Bool) (h : db.GetOverride p k = .ok r) :
    ∃ co, GoMap.get db.Overrides (GetConfigPathStr p) = some co := by
  simp only [ConfigDb.GetOverride] at h
  cases hco : GoMap.get db.Overrides (GetConfigPathStr p) with
  | none => rw [hco] at h; exact Except.noConfusion h
  | some co => exact ⟨co, rfl⟩

theorem GetOverride_not_found (db : ConfigDb) (p : ConfigPath) (k : OverrideKey)
    (co : ConfigOverrides) (hco : GoMap.get db.Overrides (GetConfigPathStr p) = some co)
    (h : ∀ o, db.GetOverride p k ≠ .ok (o, true)) :
    db.GetOverride p k = .ok (Override.zero, false) := by
  rw [GetOverride_of_set db p k co hco] at h ⊢
  cases hk : GoMap.get co (GetOverridePathStr k) with
  | none => rfl
  | some o => rw [hk] at h; exact absurd rfl (h o)

theorem resolveLoop_no_match (db : ConfigDb) (p : ConfigPath) (v : String)
    (co : ConfigOverrides) (hco : GoMap.get db.Overrides (GetConfigPathStr p) = some co)
    (attributes : List (String × String))
    (h : ∀ a ∈ attributes, ∀ o, db.GetOverride p ⟨a.1, a.2⟩ ≠ .ok (o, true)) :
    resolveLoop db p v attributes = .ok v := by
  induction attributes with
  | nil => rfl
  | cons a rest ih =>
    obtain ⟨key, value⟩ := a
    have h0 := GetOverride_not_found db p ⟨key, value⟩ co hco (h (key, value) (List.mem_cons_self _ _))
    simp only [resolveLoop, h0]
    exact ih (fun a ha => h a (List.mem_cons_of_mem _ ha))

theorem resolveLoop_single_match (db : ConfigDb) (p : ConfigPath) (v : String)
    (t e : String) (ov : Override)
    (hov : db.GetOverride p ⟨t, e⟩ = .ok (ov, true))
    (order : List (String × String)) (hmem : (t, e) ∈ order)
    (h : ∀ a ∈ order, a ≠ (t, e) → ∀ o, db.GetOverride p ⟨a.1, a.2⟩ ≠ .ok (o, true)) :
    resolveLoop db p v order = .ok ov.Value := by
  obtain ⟨co, hco⟩ := GetOverride_found_set db p _ _ hov
  induction order with
  | nil => exact absurd hmem (List.not_mem_nil _)
  | cons a rest ih =>
    obtain ⟨key, value⟩ := a
    by_cases ha : (key, value) = (t, e)
    · obtain ⟨rfl, rfl⟩ := Prod.mk.inj ha
      simp only [resolveLoop, hov, if_true]
    · have h0 := GetOverride_not_found db p ⟨key, value⟩ co hco
        (h (key, value) (List.mem_cons_self _ _) ha)
      simp only [resolveLoop, h0]
      refine ih ?_ (fun a ha' => h a (List.mem_cons_of_mem _ ha'))
      rcases List.mem_cons.1 hmem with hm | hm
      · exact absurd hm.symm ha
      · exact hm

theorem AddOverride_get_ne (db : ConfigDb) (p : ConfigPath) (o : Override) (k : String)
    (h : k ≠ GetConfigPathStr p) :
    GoMap.get (db.AddOverride p o).1.Overrides k = GoMap.get db.Overrides k := by
  simp only [ConfigDb.AddOverride]
  split
  · rfl
  · exact GoMap.get_set_ne _ _ h

theorem AddOverride_of_set (db : ConfigDb) (p : ConfigPath) (o : Override)
    (co : ConfigOverrides) (h : GoMap.get db.Overrides (GetConfigPathStr p) = some co) :
    db.AddOverride p o =
      ({ db with
          Overrides := GoMap.set db.Overrides (GetConfigPathStr p)
            (GoMap.set co (GetOverridePathStr o.toOverrideKey) o) }, none) := by
  simp only [ConfigDb.AddOverride, h]

theorem DeleteOverride_of_set (db : ConfigDb) (p : ConfigPath) (k : OverrideKey)
    (co : ConfigOverrides) (h : GoMap.get db.Overrides (GetConfigPathStr p) = some co) :
    db.DeleteOverride p k =
      ({ db with
          Overrides := GoMap.set db.Overrides (GetConfigPathStr p)
            (GoMap.delete co (GetOverridePathStr k)) }, none) := by
  simp only [ConfigDb.DeleteOverride, h]

theorem GetConfigValue_congr (db db' : ConfigDb) (p : ConfigPath)
    (hc : db'.Configs = db.Configs)
    (ho : GoMap.get db'.Overrides (GetConfigPathStr p) = GoMap.get db.Overrides (GetConfigPathStr p))
    (attributes : List (String × String)) :
    GetConfigValue db' p attributes = GetConfigValue db p attributes := by
  have hl : ∀ v, resolveLoop db' p v attributes = resolveLoop db p v attributes :=
    fun v => resolveLoop_congr db db' p v (fun k => GetOverride_congr db db' p k ho) attributes
  simp only [GetConfigValue, ConfigDb.GetConfig, hc, hl]

theorem resolveLoop_ok (db : ConfigDb) (p : ConfigPath) (v : String)
    (co : ConfigOverrides) (hco : GoMap.get db.Overrides (GetConfigPathStr p) = some co)
    (attributes : List (String × String)) :
    ∃ r, resolveLoop db p v attributes = .ok r := by
  induction attributes with
  | nil => exact ⟨v, rfl⟩
  | cons a rest ih =>
    obtain ⟨key, value⟩ := a
    simp only [resolveLoop, GetOverride_of_set db p _ co hco]
    cases GoMap.get co (GetOverridePathStr ⟨key, value⟩) with
    | none => simpa using ih
    | some o => exact ⟨o.Value, by simp⟩

theorem GetConfig_AddConfig_self (db : ConfigDb) (config : Config) :
    (db.AddConfig config).1.GetConfig config.toConfigPath = .ok config := by
  simp only [ConfigDb.GetConfig, ConfigDb.AddConfig, GoMap.get_set_self]

theorem step_OverridesKeyed (db : ConfigDb) (op : Op) (h : OverridesKeyed db) :
    OverridesKeyed (db.step op) := by
  intro e he
  cases op with
  | addConfig cfg =>
    have he' : e ∈ GoMap.set db.Overrides (GetConfigPathStr cfg.toConfigPath) [] := he
    rcases (GoMap.mem_set _ _ _ _).1 he' with rfl | ⟨hm, _⟩
    · exact ⟨fun f hf => absurd hf (List.not_mem_nil _), List.nodup_nil⟩
    · exact h e hm
  | deleteConfig p => exact h e he
  | addOverride p o =>
    simp only [ConfigDb.step, ConfigDb.AddOverride] at he
    cases hp : GoMap.get db.Overrides (GetConfigPathStr p) with
    | none => rw [hp] at he; exact h e he
    | some co =>
      rw [hp] at he
      have hco := h _ (GoMap.mem_of_get_eq_some _ _ _ hp)
      rcases (GoMap.mem_set _ _ _ _).1 he with rfl | ⟨hm, _⟩
      · refine ⟨?_, GoMap.nodup_set _ _ _ hco.2⟩
        intro f hf
        rcases (GoMap.mem_set _ _ _ _).1 hf with rfl | ⟨hfm, _⟩
        · rfl
        · exact hco.1 f hfm
      · exact h e hm
  | deleteOverride p key =>
    simp only [ConfigDb.step, ConfigDb.DeleteOverride] at he
    cases hp : GoMap.get db.Overrides (GetConfigPathStr p) with
    | none => rw [hp] at he; exact h e he
    | some co =>
      rw [hp] at he
      have hco := h _ (GoMap.mem_of_get_eq_some _ _ _ hp)
      rcases (GoMap.mem_set _ _ _ _).1 he with rfl | ⟨hm, _⟩
      · exact ⟨fun f hf => hco.1 f ((GoMap.mem_delete _ _ _).1 hf).1,
          GoMap.nodup_delete _ _ hco.2⟩
      · exact h e hm

theorem run_OverridesKeyed (ops : List Op) :
    ∀ db : ConfigDb, OverridesKeyed db → OverridesKeyed (db.run ops) := by
  induction ops with
  | nil => intro db h; exact h
  | cons op rest ih =>
    intro db h
    exact ih (db.step op) (step_OverridesKeyed db op h)

theorem Reachable.overridesKeyed {db : ConfigDb} (h : Reachable db) : OverridesKeyed db := by
  obtain ⟨ops, rfl⟩ := h
  refine run_OverridesKeyed ops BuildApplication ?_
  intro e he
  simp [BuildApplication] at he

theorem GetOverrides_ok_set (db : ConfigDb) (p : ConfigPath) (l : List Override)
    (h : db.GetOverrides p = .ok l) :
    ∃ co, GoMap.get db.Overrides (GetConfigPathStr p) = some co ∧ l = GoMap.values co := by
  simp only [ConfigDb.GetOverrides] at h
  cases hco : GoMap.get db.Overrides (GetConfigPathStr p) with
  | none => rw [hco] at h; exact Except.noConfusion h
  | some co =>
    rw [hco] at h
    exact ⟨co, rfl, (Except.ok.inj h).symm⟩

/-- In a store with `OverridesKeyed`, an override listed by `GetOverrides` is the
one `GetOverride` finds for its key. -/
theorem GetOverride_of_listed (db : ConfigDb) (p : ConfigPath) (l : List Override)
    (ov : Override) (hk : OverridesKeyed db)
    (hl : db.GetOverrides p = .ok l) (hov : ov ∈ l) :
    db.GetOverride p ov.toOverrideKey = .ok (ov, true) := by
  obtain ⟨co, hco, rfl⟩ := GetOverrides_ok_set db p l hl
  have hinv := hk _ (GoMap.mem_of_get_eq_some _ _ _ hco)
  obtain ⟨ks, hmem⟩ := (GoMap.mem_values co ov).1 hov
  have hks : ks = GetOverridePathStr ov.toOverrideKey := hinv.1 _ hmem
  have hget : GoMap.get co (GetOverridePathStr ov.toOverrideKey) = some ov := by
    rw [← hks]; exact GoMap.get_of_mem_nodup co ks ov hmem hinv.2
  rw [GetOverride_of_set db p _ co hco, hget]

/-- In a store with `OverridesKeyed`, an override found by `GetOverride` is listed
by `GetOverrides` and has the key string of the key looked up. -/
theorem listed_of_GetOverride (db : ConfigDb) (p : ConfigPath) (l : List Override)
    (key : OverrideKey) (o : Override) (hk : OverridesKeyed db)
    (hl : db.GetOverrides p = .ok l) (ho : db.GetOverride p key = .ok (o, true)) :
    o ∈ l ∧ GetOverridePathStr o.toOverrideKey = GetOverridePathStr key := by
  obtain ⟨co, hco, rfl⟩ := GetOverrides_ok_set db p l hl
  have hinv := hk _ (GoMap.mem_of_get_eq_some _ _ _ hco)
  rw [GetOverride_of_set db p key co hco] at ho
  cases hg : GoMap.get co (GetOverridePathStr key) with
  | none =>
    rw [hg] at ho
    have hb : false = true := congrArg Prod.snd (Except.ok.inj ho)
    exact Bool.noConfusion hb
  | some o' =>
    rw [hg] at ho
    have ho' : o' = o := congrArg Prod.fst (Except.ok.inj ho)
    subst ho'
    have hmem := GoMap.mem_of_get_eq_some _ _ _ hg
    exact ⟨(GoMap.mem_values co o').2 ⟨_, hmem⟩, (hinv.1 _ hmem).symm⟩

/-- When no entity type holds `/`, a pair that is the key of no listed override is
found by no lookup. -/
theorem GetOverride_not_found_of_not_listed (db : ConfigDb) (p : ConfigPath)
    (l : List Override) (key : OverrideKey) (hk : OverridesKeyed db)
    (hl : db.GetOverrides p = .ok l)
    (hkey : '/' ∉ key.EntityType.data) (hstored : ∀ o ∈ l, '/' ∉ o.EntityType.data)
    (hnone : ∀ o ∈ l, o.toOverrideKey ≠ key) :
    ∀ o, db.GetOverride p key ≠ .ok (o, true) := by
  intro o ho
  obtain ⟨hmem, hstr⟩ := listed_of_GetOverride db p l key o hk hl ho
  exact hnone o hmem (GetOverridePathStr_inj _ _ (hstored o hmem) hkey hstr)

/-! ## The claims -/

/-- C1 fails: `config1` holds the overrides of keys `("user", "123")` and
`("a", "b/c")`; of the attribute map `{user: "123", "a/b": "c"}` only the pair
`("user", "123")` is the key of an override, yet ranged over in the order `"a/b"`,
`user` the map resolves to `"v"`, the value stored for `("a", "b/c")`. -/
theorem single_match_collision :
    collisionDb.GetConfig path1 = .ok config1
      ∧ collisionDb.GetOverrides path1 = .ok [slashOverride, override1]
      ∧ override1.toOverrideKey = ⟨"user", "123"⟩
      ∧ (∀ o ∈ [slashOverride, override1], o.toOverrideKey ≠ ⟨"a/b", "c"⟩)
      ∧ GetConfigValue collisionDb path1 [("user", "123"), ("a/b", "c")]
          = .ok { Type_ := "string", Value := "override1" }
      ∧ GetConfigValue collisionDb path1 [("a/b", "c"), ("user", "123")]
          = .ok { Type_ := "string", Value := "v" } := by
  decide

/-- C1 as amended: in a store where `id` has the definition `config`, in whatever
order the attribute map is ranged over, `GetConfigValue` returns `config`'s type
with `ov`'s value (1) when `(entityType, entityId)` is the only pair of the map
under whose key string `entityType/entityId` an override is stored for `id`, and
`ov` is the override stored there (`GetOverride` finds `ov` for it and nothing for
every other pair); (2) in a reachable store where no entity type of the map or of
the override set of `id` holds the character `/`, when `(entityType, entityId)` is
the only pair of the map that is the key of an override of the set, and `ov` is
that override. -/
theorem single_match_resolution (db : ConfigDb) (id : ConfigPath) (config : Config)
    (attributes order : List (String × String)) (entityType entityId : String) (ov : Override)
    (hdef : db.GetConfig id = .ok config)
    (hmem : (entityType, entityId) ∈ attributes)
    (horder : order.Perm attributes) :
    (db.GetOverride id ⟨entityType, entityId⟩ = .ok (ov, true) →
        (∀ p ∈ attributes, p ≠ (entityType, entityId) →
          ∀ o, db.GetOverride id ⟨p.1, p.2⟩ ≠ .ok (o, true)) →
        GetConfigValue db id order = .ok { Type_ := config.Type_, Value := ov.Value })
      ∧ (Reachable db → ∀ l, db.GetOverrides id = .ok l →
        ov ∈ l → ov.toOverrideKey = ⟨entityType, entityId⟩ →
        (∀ p ∈ attributes, p ≠ (entityType, entityId) →
          ∀ o ∈ l, o.toOverrideKey ≠ ⟨p.1, p.2⟩) →
        (∀ p ∈ attributes, '/' ∉ p.1.data) → (∀ o ∈ l, '/' ∉ o.EntityType.data) →
        GetConfigValue db id order = .ok { Type_ := config.Type_, Value := ov.Value }) := by
  have hA : db.GetOverride id ⟨entityType, entityId⟩ = .ok (ov, true) →
      (∀ p ∈ attributes, p ≠ (entityType, entityId) →
        ∀ o, db.GetOverride id ⟨p.1, p.2⟩ ≠ .ok (o, true)) →
      GetConfigValue db id order = .ok { Type_ := config.Type_, Value := ov.Value } := by
    intro hov hothers
    have hl := resolveLoop_single_match db id config.DefaultValue entityType entityId ov hov
      order (horder.mem_iff.2 hmem) (fun a ha => hothers a (horder.mem_iff.1 ha))
    simp only [GetConfigValue, hdef, hl]
  refine ⟨hA, ?_⟩
  intro hreach l hl hov hkey hothers hattr hstored
  have hk := hreach.overridesKeyed
  refine hA ?_ ?_
  · rw [← hkey]
    exact GetOverride_of_listed db id l ov hk hl hov
  · intro p hp hne
    exact GetOverride_not_found_of_not_listed db id l ⟨p.1, p.2⟩ hk hl (hattr p hp) hstored
      (hothers p hp hne)

/-- The scenario of `TestGetConfigValueOverrideByMultipleEntity`: by the key
strings with the attribute map ranged over in the order group, user, and by the
keys of the stored overrides in the order user, group. -/
theorem single_match_resolution_witness :
    GetConfigValue testDb path1 [("group", "789"), ("user", "123")]
        = .ok { Type_ := "string", Value := "override1" }
      ∧ GetConfigValue testDb path1 [("user", "123"), ("group", "789")]
        = .ok { Type_ := "string", Value := "override1" } :=
  ⟨(single_match_resolution testDb path1 config1 [("user", "123"), ("group", "789")]
      [("group", "789"), ("user", "123")] "user" "123" override1
      (by decide) (by decide) (List.Perm.swap _ _ _)).1
      (by decide)
      (by
        intro p hp hne o
        rcases List.mem_cons.1 hp with rfl | hp
        · exact absurd rfl hne
        · rcases List.mem_cons.1 hp with rfl | hp
          · have h0 : testDb.GetOverride path1 ⟨"group", "789"⟩
                = .ok (Override.zero, false) := by decide
            rw [h0]
            intro h1
            cases h1
          · exact absurd hp (List.not_mem_nil _)),
    (single_match_resolution testDb path1 config1 [("user", "123"), ("group", "789")]
      [("user", "123"), ("group", "789")] "user" "123" override1
      (by decide) (by decide) (List.Perm.refl _)).2
      ⟨[.addConfig config1, .addOverride path1 override1, .addOverride path1 override2], rfl⟩
      [override2, override1] (by decide) (by decide) (by decide) (by decide) (by decide)
      (by decide)⟩

/-- C2 fails: `config1` holds the override of key `("a", "b/c")` alone; the pair
`("a/b", "c")` of the attribute map `{"a/b": "c"}` is the key of no override, yet
the map resolves to `"v"` and not to the default `"value1"`. -/
theorem default_fallback_collision :
    slashOverrideDb.GetConfig path1 = .ok config1
      ∧ slashOverrideDb.GetOverrides path1 = .ok [slashOverride]
      ∧ (∀ o ∈ [slashOverride], o.toOverrideKey ≠ ⟨"a/b", "c"⟩)
      ∧ GetConfigValue slashOverrideDb path1 [("a/b", "c")]
          = .ok { Type_ := "string", Value := "v" }
      ∧ GetConfigValue slashOverrideDb path1 [("a/b", "c")]
          ≠ .ok { Type_ := config1.Type_, Value := config1.DefaultValue } := by
  decide

/-- C2 as amended: in a reachable store where `id` has the definition `config`,
`GetConfigValue` returns exactly `config`'s type and default value (1) when an
override is stored for `id` under the key string `entityType/entityId` of no pair
of the attribute map (`GetOverride` finds nothing for any pair); (2) when no
entity type of the map or of the override set of `id` holds the character `/` and
no pair of the map is the key of an override of the set; (3) when the attribute
map is empty, whatever overrides the config has. -/
theorem default_fallback (db : ConfigDb) (id : ConfigPath) (config : Config)
    (attributes : List (String × String))
    (hreach : Reachable db)
    (hdef : db.GetConfig id = .ok config) :
    ((∀ p ∈ attributes, ∀ o, db.GetOverride id ⟨p.1, p.2⟩ ≠ .ok (o, true)) →
        GetConfigValue db id attributes
          = .ok { Type_ := config.Type_, Value := config.DefaultValue })
      ∧ (∀ l, db.GetOverrides id = .ok l →
        (∀ p ∈ attributes, ∀ o ∈ l, o.toOverrideKey ≠ ⟨p.1, p.2⟩) →
        (∀ p ∈ attributes, '/' ∉ p.1.data) → (∀ o ∈ l, '/' ∉ o.EntityType.data) →
        GetConfigValue db id attributes
          = .ok { Type_ := config.Type_, Value := config.DefaultValue })
      ∧ GetConfigValue db id []
          = .ok { Type_ := config.Type_, Value := config.DefaultValue } := by
  obtain ⟨co, hco⟩ := hreach.keysCovered _ _ ((GetConfig_eq_ok_iff db id config).1 hdef)
  have hA : ∀ attrs : List (String × String),
      (∀ p ∈ attrs, ∀ o, db.GetOverride id ⟨p.1, p.2⟩ ≠ .ok (o, true)) →
      GetConfigValue db id attrs
        = .ok { Type_ := config.Type_, Value := config.DefaultValue } := by
    intro attrs hnone
    have hl := resolveLoop_no_match db id config.DefaultValue co hco attrs hnone
    simp only [GetConfigValue, hdef, hl]
  refine ⟨hA attributes, ?_, hA [] (fun p hp => absurd hp (List.not_mem_nil _))⟩
  intro l hl hnone hattr hstored
  refine hA attributes ?_
  intro p hp
  exact GetOverride_not_found_of_not_listed db id l ⟨p.1, p.2⟩ hreach.overridesKeyed hl
    (hattr p hp) hstored (hnone p hp)

/-- The store with two overrides asked with an attribute that matches neither,
by the key strings and by the keys of the stored overrides, and asked with the
empty attribute map. -/
theorem default_fallback_witness :
    GetConfigValue testDb path1 [("group", "789")]
        = .ok { Type_ := "string", Value := "value1" }
      ∧ GetConfigValue testDb path1 [("group", "789")]
        = .ok { Type_ := "string", Value := "value1" }
      ∧ GetConfigValue testDb path1 [] = .ok { Type_ := "string", Value := "value1" } :=
  have h := default_fallback testDb path1 config1 [("group", "789")]
    ⟨[.addConfig config1, .addOverride path1 override1, .addOverride path1 override2], rfl⟩
    (by decide)
  ⟨h.1 (by
      intro p hp o
      rcases List.mem_cons.1 hp with rfl | hp
      · have h0 : testDb.GetOverride path1 ⟨"group", "789"⟩ = .ok (Override.zero, false) := by
          decide
        rw [h0]
        intro h1
        cases h1
      · exact absurd hp (List.not_mem_nil _)),
    h.2.1 [override2, override1] (by decide) (by decide) (by decide) (by decide),
    h.2.2⟩

/-- C3 fails: `config1` has the override `override1`; after `AddConfig` of
`config1b`, a definition of the same identity, `GetOverride` no longer finds it
and `GetOverrides` returns the empty list. -/
theorem reregistration_drops_overrides :
    overrideDb.GetConfig path1 = .ok config1
      ∧ config1b.toConfigPath = path1
      ∧ overrideDb.GetOverride path1 ⟨"user", "123"⟩ = .ok (override1, true)
      ∧ overrideDb.GetOverrides path1 = .ok [override1]
      ∧ (overrideDb.AddConfig config1b).1.GetOverride path1 ⟨"user", "123"⟩
          = .ok (Override.zero, false)
      ∧ (overrideDb.AddConfig config1b).1.GetOverrides path1 = .ok [] := by
  decide

/-- C3 as amended: on every store, `AddConfig` of a definition returns no error,
makes that definition the one `GetConfig` returns for its identity, and leaves the
identity with an empty override set: `GetOverrides` returns the empty list and
`GetOverride` finds nothing for every key. -/
theorem reregistration_resets_overrides (db : ConfigDb) (config : Config) :
    (db.AddConfig config).2 = none
      ∧ (db.AddConfig config).1.GetConfig config.toConfigPath = .ok config
      ∧ (db.AddConfig config).1.GetOverrides config.toConfigPath = .ok []
      ∧ ∀ key, (db.AddConfig config).1.GetOverride config.toConfigPath key
          = .ok (Override.zero, false) := by
  refine ⟨rfl, ?_, ?_, ?_⟩
  · simp only [ConfigDb.GetConfig, ConfigDb.AddConfig, GoMap.get_set_self]
  · simp only [ConfigDb.GetOverrides, ConfigDb.AddConfig, GoMap.get_set_self]
    rfl
  · intro key
    simp only [ConfigDb.GetOverride, ConfigDb.AddConfig, GoMap.get_set_self]
    rfl

/-- C4 at its failing input: after `AddConfig` of `config1` and `DeleteConfig` of
its path, `GetConfig` fails with "Config not found", yet `GetOverrides` and
`GetOverride` return without error and `AddOverride` returns no error and stores
the override. -/
theorem override_operations_after_deleteConfig :
    deletedDb.GetConfig path1 = .error "Config not found"
      ∧ deletedDb.GetOverrides path1 = .ok []
      ∧ deletedDb.GetOverride path1 ⟨"user", "123"⟩ = .ok (Override.zero, false)
      ∧ (deletedDb.AddOverride path1 override1).2 = none
      ∧ (deletedDb.AddOverride path1 override1).1 ≠ deletedDb
      ∧ (deletedDb.AddOverride path1 override1).1.GetOverride path1 ⟨"user", "123"⟩
          = .ok (override1, true) := by
  decide

/-- C5 fails: only a definition of identity `("a/b", "c")` was added, and
`GetConfig` of the identity `("a", "b/c")` succeeds and returns it. -/
theorem getConfig_foreign_identity :
    slashDb.GetConfig ⟨"a", "b/c"⟩ = .ok slashConfig
      ∧ slashConfig.toConfigPath ≠ ⟨"a", "b/c"⟩ := by
  decide

/-- C5 as amended: in a reachable store, whenever `GetConfig id` succeeds, the
returned definition has the key string `service/name` of `id`, and its identity
is `id` when neither service holds the character `/`. -/
theorem getConfig_identity_of_key (db : ConfigDb) (id : ConfigPath) (config : Config)
    (hreach : Reachable db) (hget : db.GetConfig id = .ok config) :
    GetConfigPathStr config.toConfigPath = GetConfigPathStr id
      ∧ ('/' ∉ id.Service.data → '/' ∉ config.Service.data → config.toConfigPath = id) := by
  have hmem := GoMap.mem_of_get_eq_some _ _ _ ((GetConfig_eq_ok_iff db id config).1 hget)
  have hkey : GetConfigPathStr id = GetConfigPathStr config.toConfigPath :=
    hreach.wellKeyed _ hmem
  exact ⟨hkey.symm, fun h1 h2 => GetConfigPathStr_inj _ _ h2 h1 hkey.symm⟩

/-- The store of `TestGetConfig`: the definition returned for `path1` has the
identity `path1`. -/
theorem getConfig_identity_of_key_witness :
    GetConfigPathStr config1.toConfigPath = GetConfigPathStr path1
      ∧ ('/' ∉ path1.Service.data → '/' ∉ config1.Service.data → config1.toConfigPath = path1) :=
  getConfig_identity_of_key (BuildApplication.run [.addConfig config1]) path1 config1
    ⟨[.addConfig config1], rfl⟩ (by decide)

/-- C6, upsert idempotence of `AddConfig`: on a reachable store, for two
definitions `d1`, `d2` of one identity, both `AddConfig` calls return no error;
after both, `GetConfig` of the identity returns exactly `d2`, the list returned by
`GetConfigs` holds exactly one definition of that identity (it is `d2`), and that
list has the length it had after `AddConfig d1` alone. -/
theorem addConfig_upsert (db : ConfigDb) (d1 d2 : Config)
    (hreach : Reachable db) (hid : d2.toConfigPath = d1.toConfigPath) :
    (db.AddConfig d1).2 = none
      ∧ ((db.AddConfig d1).1.AddConfig d2).2 = none
      ∧ ((db.AddConfig d1).1.AddConfig d2).1.GetConfig d1.toConfigPath = .ok d2
      ∧ ∃ l1 l2, (db.AddConfig d1).1.GetConfigs = .ok l1
          ∧ ((db.AddConfig d1).1.AddConfig d2).1.GetConfigs = .ok l2
          ∧ l2.filter (fun c => decide (c.toConfigPath = d1.toConfigPath)) = [d2]
          ∧ l2.length = l1.length := by
  refine ⟨rfl, rfl, ?_, _, _, rfl, rfl, ?_, ?_⟩
  · simp only [ConfigDb.GetConfig, ConfigDb.AddConfig, hid, GoMap.get_set_self]
  · simp only [ConfigDb.AddConfig, hid]
    rw [GoMap.set, GoMap.delete_set_self]
    simp only [GoMap.values, List.map_cons, List.filter_cons, hid, decide_True, if_true,
      List.cons.injEq, true_and]
    rw [List.filter_eq_nil_iff]
    intro c hc
    obtain ⟨e, he, rfl⟩ := List.mem_map.1 hc
    obtain ⟨hm, hne⟩ := (GoMap.mem_delete _ _ _).1 he
    have hk := hreach.wellKeyed e hm
    simp only [decide_eq_true_eq]
    intro heq
    exact hne (by rw [hk, heq])
  · simp only [ConfigDb.AddConfig, hid, GoMap.values, List.length_map]
    exact GoMap.length_set_set _ _ _ _

/-- The store of `TestGetConfig`, registering `config1` and then `config1b`. -/
theorem addConfig_upsert_witness :
    (overrideDb.AddConfig config1).2 = none
      ∧ ((overrideDb.AddConfig config1).1.AddConfig config1b).2 = none
      ∧ ((overrideDb.AddConfig config1).1.AddConfig config1b).1.GetConfig config1.toConfigPath
          = .ok config1b
      ∧ ∃ l1 l2, (overrideDb.AddConfig config1).1.GetConfigs = .ok l1
          ∧ ((overrideDb.AddConfig config1).1.AddConfig config1b).1.GetConfigs = .ok l2
          ∧ l2.filter (fun c => decide (c.toConfigPath = config1.toConfigPath)) = [config1b]
          ∧ l2.length = l1.length :=
  addConfig_upsert overrideDb config1 config1b
    ⟨[.addConfig config1, .addOverride path1 override1], rfl⟩ (by decide)

/-- C7, override round trip: in every store obtained by `AddConfig d` followed by
any sequence of store operations, `AddOverride` of `ov` under `d`'s identity
returns no error and `GetOverride` of `ov`'s key then returns `ov` with
`found = true`; a following `AddOverride` of `ov'` with the same key returns no
error, makes `GetOverride` of that key return `ov'`, and does not lengthen the
list returned by `GetOverrides`. -/
theorem override_round_trip (db0 : ConfigDb) (d : Config) (ops : List Op) (ov ov' : Override)
    (hkey : ov'.toOverrideKey = ov.toOverrideKey) :
    (((db0.AddConfig d).1.run ops).AddOverride d.toConfigPath ov).2 = none
      ∧ (((db0.AddConfig d).1.run ops).AddOverride d.toConfigPath ov).1.GetOverride
          d.toConfigPath ov.toOverrideKey = .ok (ov, true)
      ∧ ((((db0.AddConfig d).1.run ops).AddOverride d.toConfigPath ov).1.AddOverride
          d.toConfigPath ov').2 = none
      ∧ ((((db0.AddConfig d).1.run ops).AddOverride d.toConfigPath ov).1.AddOverride
          d.toConfigPath ov').1.GetOverride d.toConfigPath ov.toOverrideKey = .ok (ov', true)
      ∧ ∃ l1 l2,
          (((db0.AddConfig d).1.run ops).AddOverride d.toConfigPath ov).1.GetOverrides
            d.toConfigPath = .ok l1
          ∧ ((((db0.AddConfig d).1.run ops).AddOverride d.toConfigPath ov).1.AddOverride
            d.toConfigPath ov').1.GetOverrides d.toConfigPath = .ok l2
          ∧ l2.length ≤ l1.length := by
  obtain ⟨co, hco⟩ := run_Overrides_present ops (db0.AddConfig d).1
    (GetConfigPathStr d.toConfigPath) ⟨[], GoMap.get_set_self _ _ _⟩
  generalize (db0.AddConfig d).1.run ops = db at hco ⊢
  rw [AddOverride_of_set db _ ov co hco]
  have h1 : GoMap.get
      (GoMap.set db.Overrides (GetConfigPathStr d.toConfigPath)
        (GoMap.set co (GetOverridePathStr ov.toOverrideKey) ov))
      (GetConfigPathStr d.toConfigPath)
      = some (GoMap.set co (GetOverridePathStr ov.toOverrideKey) ov) :=
    GoMap.get_set_self _ _ _
  rw [AddOverride_of_set _ _ ov' _ h1]
  refine ⟨rfl, ?_, rfl, ?_,
    GoMap.values (GoMap.set co (GetOverridePathStr ov.toOverrideKey) ov),
    GoMap.values (GoMap.set (GoMap.set co (GetOverridePathStr ov.toOverrideKey) ov)
      (GetOverridePathStr ov'.toOverrideKey) ov'), ?_, ?_, ?_⟩
  · simp only [ConfigDb.GetOverride, GoMap.get_set_self]
  · simp only [ConfigDb.GetOverride, GoMap.get_set_self, hkey]
  · simp only [ConfigDb.GetOverrides, GoMap.get_set_self]
  · simp only [ConfigDb.GetOverrides, GoMap.get_set_self]
  · simp only [GoMap.values, List.length_map, hkey]
    exact le_of_eq (GoMap.length_set_set _ _ _ _)

/-- The store of `TestAddOverride`: `override1` is added and then replaced by an
override of the same key with another value. -/
theorem override_round_trip_witness :
    (((BuildApplication.AddConfig config1).1.run []).AddOverride
        config1.toConfigPath override1).2 = none
      ∧ (((BuildApplication.AddConfig config1).1.run []).AddOverride
          config1.toConfigPath override1).1.GetOverride
          config1.toConfigPath override1.toOverrideKey = .ok (override1, true)
      ∧ ((((BuildApplication.AddConfig config1).1.run []).AddOverride
          config1.toConfigPath override1).1.AddOverride
          config1.toConfigPath { override1 with Value := "override3" }).2 = none
      ∧ ((((BuildApplication.AddConfig config1).1.run []).AddOverride
          config1.toConfigPath override1).1.AddOverride
          config1.toConfigPath { override1 with Value := "override3" }).1.GetOverride
          config1.toConfigPath override1.toOverrideKey
          = .ok ({ override1 with Value := "override3" }, true)
      ∧ ∃ l1 l2,
          (((BuildApplication.AddConfig config1).1.run []).AddOverride
            config1.toConfigPath override1).1.GetOverrides config1.toConfigPath = .ok l1
          ∧ ((((BuildApplication.AddConfig config1).1.run []).AddOverride
            config1.toConfigPath override1).1.AddOverride
            config1.toConfigPath { override1 with Value := "override3" }).1.GetOverrides
            config1.toConfigPath = .ok l2
          ∧ l2.length ≤ l1.length :=
  override_round_trip BuildApplication config1 [] override1
    { override1 with Value := "override3" } (by decide)

/-- C8, override scoping: for `X ≠ Y` and `A ≠ B`, `AddOverride` of any override
under `(A, X)` on any store changes the result of `GetOverride` for no key under
`(A, Y)` or `(B, X)`, and the result of `GetConfigValue` for `(A, Y)` or `(B, X)`
under no attribute map. -/
theorem override_scoping (A B X Y : String) (hXY : X ≠ Y) (hAB : A ≠ B)
    (db : ConfigDb) (ov : Override) :
    (∀ k, (db.AddOverride ⟨A, X⟩ ov).1.GetOverride ⟨A, Y⟩ k = db.GetOverride ⟨A, Y⟩ k)
      ∧ (∀ k, (db.AddOverride ⟨A, X⟩ ov).1.GetOverride ⟨B, X⟩ k = db.GetOverride ⟨B, X⟩ k)
      ∧ (∀ attributes, GetConfigValue (db.AddOverride ⟨A, X⟩ ov).1 ⟨A, Y⟩ attributes
          = GetConfigValue db ⟨A, Y⟩ attributes)
      ∧ (∀ attributes, GetConfigValue (db.AddOverride ⟨A, X⟩ ov).1 ⟨B, X⟩ attributes
          = GetConfigValue db ⟨B, X⟩ attributes) := by
  have h1 := AddOverride_get_ne db ⟨A, X⟩ ov (GetConfigPathStr ⟨A, Y⟩)
    (GetConfigPathStr_ne_of_name_ne A Y X (fun e => hXY e.symm))
  have h2 := AddOverride_get_ne db ⟨A, X⟩ ov (GetConfigPathStr ⟨B, X⟩)
    (GetConfigPathStr_ne_of_service_ne B A X (fun e => hAB e.symm))
  exact ⟨fun k => GetOverride_congr _ _ _ k h1, fun k => GetOverride_congr _ _ _ k h2,
    fun attributes => GetConfigValue_congr _ _ _ (AddOverride_Configs _ _ _) h1 attributes,
    fun attributes => GetConfigValue_congr _ _ _ (AddOverride_Configs _ _ _) h2 attributes⟩

/-- An override added under `(service1, config1)` is seen neither under
`(service1, config2)` nor under `(service2, config1)`. -/
theorem override_scoping_witness :
    (∀ k, (testDb.AddOverride ⟨"service1", "config1"⟩ override1).1.GetOverride
          ⟨"service1", "config2"⟩ k = testDb.GetOverride ⟨"service1", "config2"⟩ k)
      ∧ (∀ k, (testDb.AddOverride ⟨"service1", "config1"⟩ override1).1.GetOverride
          ⟨"service2", "config1"⟩ k = testDb.GetOverride ⟨"service2", "config1"⟩ k)
      ∧ (∀ attributes,
          GetConfigValue (testDb.AddOverride ⟨"service1", "config1"⟩ override1).1
            ⟨"service1", "config2"⟩ attributes
          = GetConfigValue testDb ⟨"service1", "config2"⟩ attributes)
      ∧ (∀ attributes,
          GetConfigValue (testDb.AddOverride ⟨"service1", "config1"⟩ override1).1
            ⟨"service2", "config1"⟩ attributes
          = GetConfigValue testDb ⟨"service2", "config1"⟩ attributes) :=
  override_scoping "service1" "service2" "config1" "config2" (by decide) (by decide)
    testDb override1

/-- C10 fails: `config1` holds the override of key `("a", "b/c")`; after
`DeleteOverride` of the other key `("a/b", "c")`, `GetOverride` of `("a", "b/c")`
no longer finds it. -/
theorem deleteOverride_foreign_key :
    slashOverrideDb.GetConfig path1 = .ok config1
      ∧ (⟨"a", "b/c"⟩ : OverrideKey) ≠ ⟨"a/b", "c"⟩
      ∧ slashOverrideDb.GetOverride path1 ⟨"a", "b/c"⟩ = .ok (slashOverride, true)
      ∧ (slashOverrideDb.DeleteOverride path1 ⟨"a/b", "c"⟩).1.GetOverride path1 ⟨"a", "b/c"⟩
          = .ok (Override.zero, false) := by
  decide

/-- C10 as amended: in a reachable store where `id` has a definition, for every
key `k`, `DeleteOverride id k` returns no error and `GetOverride id k` then returns
`found = false` with no error; `GetOverride id k'` is unchanged for every key `k'`
whose key string `entityType/entityId` differs from that of `k`, which is every
`k' ≠ k` when neither entity type holds the character `/`. -/
theorem deleteOverride_visibility (db : ConfigDb) (id : ConfigPath) (config : Config)
    (k : OverrideKey) (hreach : Reachable db) (hdef : db.GetConfig id = .ok config) :
    (db.DeleteOverride id k).2 = none
      ∧ (db.DeleteOverride id k).1.GetOverride id k = .ok (Override.zero, false)
      ∧ (∀ k', GetOverridePathStr k' ≠ GetOverridePathStr k →
          (db.DeleteOverride id k).1.GetOverride id k' = db.GetOverride id k')
      ∧ (∀ k', k' ≠ k → '/' ∉ k.EntityType.data → '/' ∉ k'.EntityType.data →
          (db.DeleteOverride id k).1.GetOverride id k' = db.GetOverride id k') := by
  obtain ⟨co, hco⟩ := hreach.keysCovered _ _ ((GetConfig_eq_ok_iff db id config).1 hdef)
  have hne : ∀ k', GetOverridePathStr k' ≠ GetOverridePathStr k →
      (db.DeleteOverride id k).1.GetOverride id k' = db.GetOverride id k' := by
    intro k' hk
    rw [DeleteOverride_of_set db id k co hco]
    simp only [ConfigDb.GetOverride, GoMap.get_set_self, hco, GoMap.get_delete_ne co hk]
  refine ⟨?_, ?_, hne, ?_⟩
  · rw [DeleteOverride_of_set db id k co hco]
  · rw [DeleteOverride_of_set db id k co hco]
    simp only [ConfigDb.GetOverride, GoMap.get_set_self, GoMap.get_delete_self]
  · intro k' hk h1 h2
    exact hne k' (fun e => hk (GetOverridePathStr_inj k' k h2 h1 e))

/-- The store of `TestDeleteOverride`: after the delete of `(user, 123)` the
override is not found. -/
theorem deleteOverride_visibility_witness :
    (overrideDb.DeleteOverride path1 ⟨"user", "123"⟩).2 = none
      ∧ (overrideDb.DeleteOverride path1 ⟨"user", "123"⟩).1.GetOverride path1 ⟨"user", "123"⟩
          = .ok (Override.zero, false)
      ∧ (∀ k', GetOverridePathStr k' ≠ GetOverridePathStr ⟨"user", "123"⟩ →
          (overrideDb.DeleteOverride path1 ⟨"user", "123"⟩).1.GetOverride path1 k'
            = overrideDb.GetOverride path1 k')
      ∧ (∀ k', k' ≠ ⟨"user", "123"⟩ → '/' ∉ ("user" : String).data → '/' ∉ k'.EntityType.data →
          (overrideDb.DeleteOverride path1 ⟨"user", "123"⟩).1.GetOverride path1 k'
            = overrideDb.GetOverride path1 k') :=
  deleteOverride_visibility overrideDb path1 config1 ⟨"user", "123"⟩
    ⟨[.addConfig config1, .addOverride path1 override1], rfl⟩ (by decide)

/-- C11, `GetConfigValue` fails on a missing config: on every store, when
`GetConfig id` finds no definition, `GetConfigValue id` returns, for every
attribute map, the error "Config not found" of the store wrapped by the handler,
and no value. -/
theorem getConfigValue_missing_config (db : ConfigDb) (id : ConfigPath)
    (attributes : List (String × String))
    (hmiss : ∀ c, db.GetConfig id ≠ .ok c) :
    db.GetConfig id = .error (errors.New "Config not found")
      ∧ GetConfigValue db id attributes
          = .error (errors.Wrap (errors.New "Config not found") "failed to get config from db")
      ∧ ∀ r, GetConfigValue db id attributes ≠ .ok r := by
  have hn : GoMap.get db.Configs (GetConfigPathStr id) = none := by
    cases hc : GoMap.get db.Configs (GetConfigPathStr id) with
    | none => rfl
    | some c => exact absurd ((GetConfig_eq_ok_iff db id c).2 hc) (hmiss c)
  have hg : db.GetConfig id = .error (errors.New "Config not found") := by
    simp only [ConfigDb.GetConfig, hn]
  have hv : GetConfigValue db id attributes
      = .error (errors.Wrap (errors.New "Config not found") "failed to get config from db") := by
    simp only [GetConfigValue, hg]
  refine ⟨hg, hv, ?_⟩
  intro r hr
  rw [hv] at hr
  exact Except.noConfusion hr

/-- The config deleted after an override was added to it, asked with the
attribute that the override matches. -/
theorem getConfigValue_missing_config_witness :
    orphanDb.GetConfig path1 = .error (errors.New "Config not found")
      ∧ GetConfigValue orphanDb path1 [("user", "123")]
          = .error (errors.Wrap (errors.New "Config not found") "failed to get config from db")
      ∧ ∀ r, GetConfigValue orphanDb path1 [("user", "123")] ≠ .ok r :=
  getConfigValue_missing_config orphanDb path1 [("user", "123")]
    (by
      intro c hc
      have h0 : orphanDb.GetConfig path1 = .error "Config not found" := by decide
      rw [h0] at hc
      cases hc)

/-- C13, config registration validation: on every store and for every decoded
request body, when the posted `service` or `name` is empty `PostConfig` fails and
returns the store as it was; when both are non-empty it succeeds and `GetConfig`
of the posted identity then returns the posted definition. -/
theorem postConfig_validation (db : ConfigDb) (requestBody : PostConfigRequest) :
    ((requestBody.Config.Service = "" ∨ requestBody.Config.Name = "") →
        PostConfig db requestBody
          = (db, .error (errors.New "config name and service are required")))
      ∧ ((requestBody.Config.Service ≠ "" ∧ requestBody.Config.Name ≠ "") →
        (PostConfig db requestBody).2 = .ok { Message := "Success" }
          ∧ (PostConfig db requestBody).1.GetConfig requestBody.Config.toConfigPath
              = .ok requestBody.Config) := by
  constructor
  · intro h
    have h' : requestBody.Config.Name = "" ∨ requestBody.Config.Service = "" := h.symm
    simp only [PostConfig, h', if_true]
  · intro h
    have h' : ¬ (requestBody.Config.Name = "" ∨ requestBody.Config.Service = "") :=
      fun hor => hor.elim h.2 h.1
    have hp : PostConfig db requestBody
        = ((db.AddConfig requestBody.Config).1, .ok { Message := "Success" }) := by
      simp only [PostConfig, h', if_false, ConfigDb.AddConfig]
    rw [hp]
    exact ⟨rfl, (GetConfig_AddConfig_self db requestBody.Config)⟩

/-- The request of `TestAddConfig` on the empty store, and the same request with
an empty name. -/
theorem postConfig_validation_witness :
    PostConfig BuildApplication { Config := { config2 with Name := "" } }
        = (BuildApplication, .error (errors.New "config name and service are required"))
      ∧ (PostConfig BuildApplication { Config := config2 }).2 = .ok { Message := "Success" }
      ∧ (PostConfig BuildApplication { Config := config2 }).1.GetConfig config2.toConfigPath
          = .ok config2 :=
  ⟨(postConfig_validation BuildApplication { Config := { config2 with Name := "" } }).1
      (Or.inr rfl),
    (postConfig_validation BuildApplication { Config := config2 }).2
      ⟨by decide, by decide⟩⟩

/-- C14, store invariant: in every store reachable from the empty store of
`BuildApplication` by `AddConfig`, `DeleteConfig`, `AddOverride` and
`DeleteOverride`, every key of the definitions map is a key of the override-set
map; hence, whenever `GetConfig id` succeeds, `GetOverride id k` returns without
error for every key and `GetConfigValue id` succeeds for every attribute map. -/
theorem store_invariant (db : ConfigDb) (hreach : Reachable db) :
    KeysCovered db
      ∧ ∀ id config, db.GetConfig id = .ok config →
          (∀ k, ∃ r, db.GetOverride id k = .ok r)
            ∧ ∀ attributes, ∃ r, GetConfigValue db id attributes = .ok r := by
  refine ⟨hreach.keysCovered, ?_⟩
  intro id config hdef
  obtain ⟨co, hco⟩ := hreach.keysCovered _ _ ((GetConfig_eq_ok_iff db id config).1 hdef)
  constructor
  · intro k
    rw [GetOverride_of_set db id k co hco]
    cases GoMap.get co (GetOverridePathStr k) with
    | none => exact ⟨_, rfl⟩
    | some o => exact ⟨_, rfl⟩
  · intro attributes
    obtain ⟨v, hv⟩ := resolveLoop_ok db id config.DefaultValue co hco attributes
    exact ⟨{ Type_ := config.Type_, Value := v }, by simp only [GetConfigValue, hdef, hv]⟩

/-- The store of `TestGetConfigValueOverrideByMultipleEntity` satisfies the
invariant and answers every lookup under `config1`. -/
theorem store_invariant_witness :
    KeysCovered testDb
      ∧ ∀ id config, testDb.GetConfig id = .ok config →
          (∀ k, ∃ r, testDb.GetOverride id k = .ok r)
            ∧ ∀ attributes, ∃ r, GetConfigValue testDb id attributes = .ok r :=
  store_invariant testDb
    ⟨[.addConfig config1, .addOverride path1 override1, .addOverride path1 override2], rfl⟩

/-- C15, key injectivity without the delimiter: when neither `s1` nor `s2` holds
the character `/`, equal strings `GetConfigPathStr` of `(s1, n1)` and `(s2, n2)`
force `s1 = s2` and `n1 = n2`, and likewise for `GetOverridePathStr`; so two
distinct such identities, or override keys, have distinct key strings. -/
theorem key_injectivity (s1 n1 s2 n2 : String)
    (h1 : '/' ∉ s1.data) (h2 : '/' ∉ s2.data) :
    (GetConfigPathStr ⟨s1, n1⟩ = GetConfigPathStr ⟨s2, n2⟩ → s1 = s2 ∧ n1 = n2)
      ∧ (GetOverridePathStr ⟨s1, n1⟩ = GetOverridePathStr ⟨s2, n2⟩ → s1 = s2 ∧ n1 = n2)
      ∧ ((⟨s1, n1⟩ : ConfigPath) ≠ ⟨s2, n2⟩ →
          GetConfigPathStr ⟨s1, n1⟩ ≠ GetConfigPathStr ⟨s2, n2⟩)
      ∧ ((⟨s1, n1⟩ : OverrideKey) ≠ ⟨s2, n2⟩ →
          GetOverridePathStr ⟨s1, n1⟩ ≠ GetOverridePathStr ⟨s2, n2⟩) := by
  refine ⟨?_, ?_, ?_, ?_⟩
  · intro h
    exact sep_append_inj s1 n1 s2 n2 h1 h2 h
  · intro h
    exact sep_append_inj s1 n1 s2 n2 h1 h2 h
  · intro hne h
    exact hne (GetConfigPathStr_inj ⟨s1, n1⟩ ⟨s2, n2⟩ h1 h2 h)
  · intro hne h
    exact hne (GetOverridePathStr_inj ⟨s1, n1⟩ ⟨s2, n2⟩ h1 h2 h)

/-- The identities `(service1, config1)` and `(service1, config2)`, and the
override keys of the same components, have distinct key strings. -/
theorem key_injectivity_witness :
    (GetConfigPathStr ⟨"service1", "config1"⟩ = GetConfigPathStr ⟨"service1", "config2"⟩ →
        "service1" = "service1" ∧ "config1" = "config2")
      ∧ (GetOverridePathStr ⟨"service1", "config1"⟩ = GetOverridePathStr ⟨"service1", "config2"⟩ →
        "service1" = "service1" ∧ "config1" = "config2")
      ∧ GetConfigPathStr ⟨"service1", "config1"⟩ ≠ GetConfigPathStr ⟨"service1", "config2"⟩
      ∧ GetOverridePathStr ⟨"service1", "config1"⟩ ≠ GetOverridePathStr ⟨"service1", "config2"⟩ :=
  have h := key_injectivity "service1" "config1" "service1" "config2" (by decide) (by decide)
  ⟨h.1, h.2.1, h.2.2.1 (by decide), h.2.2.2 (by decide)⟩

end ConfigService
